import Mathlib

/-!
Verification development for the tsickle annotation transformer, externs
generator and transformer utilities. Pure fragments of the TypeScript
sources are shallowly embedded as Lean functions over lists of characters
and structured syntax-tree models; the type checker and the module type
translator (which are external to the embedded files) appear as explicit
environment records of functions.
-/

namespace Tsickle

/-- A structured comment annotation, following the jsdoc Tag shape used by
the sources: a tag name, an optional AT type string, optional free text and
an optional parameter name. -/
structure Tag where
  tagName : String
  type : Option String := none
  text : Option String := none
  parameterName : Option String := none
deriving Repr, DecidableEq

/-- The symbol flags inspected by the embedded code, one Boolean per bit of
ts.SymbolFlags that the sources test: TypeAlias, Alias, Class and Value. -/
structure SymbolFlags where
  typeAlias : Bool := false
  aliasFlag : Bool := false
  classFlag : Bool := false
  valueFlag : Bool := false
deriving Repr, DecidableEq

/-- A checker-level symbol: an identity, a name and its flags. -/
structure Symbol where
  id : Nat
  name : String
  flags : SymbolFlags
deriving Repr, DecidableEq

/-! ## escapeForComment (jsdoc transformer)

Source: str.replace of the slash-star pattern by two underscores, globally,
then of the star-slash pattern by two underscores, globally. A global
replacement of a two-character literal pattern scans left to right without
overlap; `replaceSub2 a b` embeds one such pass over a list of characters,
replacing each occurrence of the two characters `a, b` by two underscores. -/

def replaceSub2 (a b : Char) : List Char → List Char
  | x :: y :: rest =>
    if x = a ∧ y = b then '_' :: '_' :: replaceSub2 a b rest
    else x :: replaceSub2 a b (y :: rest)
  | l => l

/-- Removes comment metacharacters from a string, to make it safe to embed
in a comment: first every occurrence of slash-star, then every occurrence
of star-slash, is replaced by two underscores. -/
def escapeForComment (str : List Char) : List Char :=
  replaceSub2 '*' '/' (replaceSub2 '/' '*' str)

/-- String-valued wrapper of `escapeForComment`. -/
def escapeForCommentStr (s : String) : String :=
  (escapeForComment s.toList).asString

/-- `hasPair a b l` is true when the two-character pattern `a, b` occurs at
adjacent positions of `l`, that is, when the two-character substring occurs. -/
def hasPair (a b : Char) : List Char → Bool
  | x :: y :: rest => (x == a && y == b) || hasPair a b (y :: rest)
  | _ => false

/-! ## Externs module-name mangling

Source (externs generator, string-literal module declaration case):
importName.replace of a single underscore by a double underscore (the
regular expression has no global flag, so only the first underscore is
doubled), then a global replace of every non-letter by an underscore. -/

/-- One pass of the non-global underscore replacement: doubles the first
underscore only, since the regular expression lacks the global flag. -/
def replaceFirstUnderscore : List Char → List Char
  | [] => []
  | c :: rest => if c = '_' then '_' :: '_' :: rest else c :: replaceFirstUnderscore rest

/-- The character class `[^A-Za-z]` of the second regular expression:
true exactly on ASCII letters. -/
def isAsciiLetter (c : Char) : Bool :=
  decide (('A' ≤ c ∧ c ≤ 'Z') ∨ ('a' ≤ c ∧ c ≤ 'z'))

/-- The global non-letter replacement: every non-letter becomes an
underscore. -/
def nonLetterToUnderscore (l : List Char) : List Char :=
  l.map (fun c => if isAsciiLetter c then c else '_')

/-- The module-name mangling performed by the externs generator for a
string-literal module declaration. -/
def mangleModuleName (s : List Char) : List Char :=
  nonLetterToUnderscore (replaceFirstUnderscore s)

/-- The child key declared under the fake namespace for a declared external
module: the namespace concat the mangled name, joined with a dot, as built
by writeExternsVariable. -/
def declaredModuleChildKey (importName : String) : String :=
  ("tsickle_declare_module.") ++ (mangleModuleName importName.toList).asString

/-- Written from the words of claim C8: double every underscore, then map
non-letters to underscores. Used only to compare with the source behavior. -/
def mangleEveryUnderscoreClaim (s : List Char) : List Char :=
  nonLetterToUnderscore (s.flatMap (fun c => if c = '_' then ['_', '_'] else [c]))

/-- Written from the amended wording: the segment before the first
underscore, the underscore doubled, then the rest, followed by the
non-letter replacement. -/
def doubleFirstUnderscoreSpec (s : List Char) : List Char :=
  if '_' ∈ s then
    s.takeWhile (fun c => c != '_') ++ ['_', '_'] ++ (s.dropWhile (fun c => c != '_')).tail
  else s

/-! ## synthesizeCommentRanges (transformer_util)

Converts parsed comment ranges into synthesized comments: the text is the
trimmed substring of the source, block comments lose their delimiters,
triple-slash single-line comments are dropped, other single-line comments
lose the leading two slashes. -/

/-- The two comment trivia kinds of the TypeScript scanner. -/
inductive CommentKind
  | multiLineCommentTrivia
  | singleLineCommentTrivia
deriving Repr, DecidableEq

/-- A parsed comment range: kind, start and end offsets into the source
text, and the trailing-newline flag. -/
structure CommentRange where
  kind : CommentKind
  pos : Nat
  endPos : Nat
  hasTrailingNewLine : Bool
deriving Repr, DecidableEq

/-- A synthesized comment: the delimiter-free text plus the kind and the
trailing-newline flag; its positions are the constant -1. -/
structure SynthesizedComment where
  kind : CommentKind
  text : List Char
  hasTrailingNewLine : Bool
  pos : Int
  endPos : Int
deriving Repr, DecidableEq

/-- The JavaScript string trim whitespace test, restricted to the
characters that occur in source files: space, tab, line feed, carriage
return, vertical tab, form feed and the no-break space. -/
def isJSWhitespace (c : Char) : Bool :=
  [' ', '\t', '\n', '\r', '\x0b', '\x0c', ' '].contains c

/-- JavaScript trim over a character list: drop whitespace from both ends. -/
def trimChars (l : List Char) : List Char :=
  ((l.dropWhile isJSWhitespace).reverse.dropWhile isJSWhitespace).reverse

/-- JavaScript substring(pos, endPos) for pos less or equal endPos. -/
def substringChars (text : List Char) (pos endPos : Nat) : List Char :=
  (text.drop pos).take (endPos - pos)

/-- The effect of replace with the anchored pattern alternation that strips
a leading slash-star and a trailing star-slash from a block comment; the
global scan of the original string removes a leading delimiter if present
and then a trailing delimiter of what remains. -/
def stripBlockCommentDelims (t : List Char) : List Char :=
  let t1 := if (['/', '*']).isPrefixOf t then t.drop 2 else t
  if (['*', '/']).isSuffixOf t1 then t1.take (t1.length - 2) else t1

/-- The effect of replace with the anchored leading double-slash pattern. -/
def stripLineCommentDelims (t : List Char) : List Char :=
  if (['/', '/']).isPrefixOf t then t.drop 2 else t

/-- The forEach body of synthesizeCommentRanges: pushes the synthesized
comment for one range onto the accumulated array, or skips a triple-slash
single-line comment. -/
def synthesizeCommentStep (sourceText : List Char)
    (synthesizedComments : List SynthesizedComment) (cr : CommentRange) :
    List SynthesizedComment :=
  let commentText := trimChars (substringChars sourceText cr.pos cr.endPos)
  match cr.kind with
  | CommentKind.multiLineCommentTrivia =>
    synthesizedComments ++
      [⟨cr.kind, stripBlockCommentDelims commentText, cr.hasTrailingNewLine, -1, -1⟩]
  | CommentKind.singleLineCommentTrivia =>
    if (['/', '/', '/']).isPrefixOf commentText then synthesizedComments
    else synthesizedComments ++
      [⟨cr.kind, stripLineCommentDelims commentText, cr.hasTrailingNewLine, -1, -1⟩]

/-- Converts CommentRanges into SynthesizedComments by iterating the step
over the parsed comments, starting from the empty array. -/
def synthesizeCommentRanges (sourceText : List Char)
    (parsedComments : List CommentRange) : List SynthesizedComment :=
  parsedComments.foldl (synthesizeCommentStep sourceText) []

/-- Written from the words of claim C9: the per-range result. A single-line
comment whose trimmed text starts with three slashes yields nothing; a
block comment yields its trimmed text with the block delimiters stripped;
any other single-line comment yields its trimmed text with the leading two
slashes stripped; kind and trailing-newline flag are preserved. -/
def synthesizeOneComment (sourceText : List Char) (cr : CommentRange) :
    Option SynthesizedComment :=
  let commentText := trimChars (substringChars sourceText cr.pos cr.endPos)
  match cr.kind with
  | CommentKind.multiLineCommentTrivia =>
    some ⟨cr.kind, stripBlockCommentDelims commentText, cr.hasTrailingNewLine, -1, -1⟩
  | CommentKind.singleLineCommentTrivia =>
    if (['/', '/', '/']).isPrefixOf commentText then none
    else some ⟨cr.kind, stripLineCommentDelims commentText, cr.hasTrailingNewLine, -1, -1⟩

/-! ## Syntax-tree model for the jsdoc transformer

Class and interface declarations with heritage clauses and members, the
property-name nodes, and the environment records standing for the type
checker and the module type translator (both external to the embedded
sources). -/

/-- The token of a heritage clause. -/
inductive HeritageToken
  | extendsKeyword
  | implementsKeyword
deriving Repr, DecidableEq

/-- The expression of one heritage type (impl.expression); carries an
identity and its source text. -/
structure HeritageExpr where
  id : Nat
  exprText : String
deriving Repr, DecidableEq

/-- A heritage clause: its token and its type expressions. -/
structure HeritageClause where
  token : HeritageToken
  types : List HeritageExpr
deriving Repr, DecidableEq

/-- The two declaration kinds handled by maybeAddHeritageClauses. -/
inductive DeclKind
  | classDeclaration
  | interfaceDeclaration
deriving Repr, DecidableEq

/-- A property name node: identifier, string literal, or anything else
(for example a computed property name). -/
inductive PropNameNode
  | identName (nameText : String)
  | stringLiteralName (nameText : String)
  | otherName (nameText : String)
deriving Repr, DecidableEq

/-- The fields of a property declaration, property signature or parameter
declaration that the embedded code reads: the optional name node, the
optional-marker question token, and the source text (getText). -/
structure PropLike where
  name : Option PropNameNode
  questionToken : Bool
  srcText : String
deriving Repr, DecidableEq

/-- The member kinds distinguished by createMemberTypeDeclaration. -/
inductive MemberKind
  | ctorMember
  | propertyDeclMember
  | propertySigMember
  | methodDeclMember
  | methodSigMember
  | getAccessorMember
  | setAccessorMember
  | otherMember
deriving Repr, DecidableEq

/-- A constructor parameter: its property fields and whether it carries one
of the field-declaration modifiers (private, protected, public, readonly). -/
structure CtorParam where
  prop : PropLike
  fieldDeclModifiers : Bool
deriving Repr, DecidableEq

/-- A class or interface member: its kind, its property fields, the static
and abstract modifier flags, and (for a constructor) its parameter list. -/
structure Member where
  kind : MemberKind
  prop : PropLike
  staticFlag : Bool
  abstractFlag : Bool
  ctorParameters : List CtorParam
deriving Repr, DecidableEq

/-- A class or interface declaration. The ambient field records the result
of isAmbient, which in the source walks the parent chain looking for the
Ambient modifier flag. -/
structure TypeDecl where
  kind : DeclKind
  name : Option String
  typeParameters : List String
  exported : Bool
  ambient : Bool
  heritageClauses : List HeritageClause
  members : List Member
deriving Repr, DecidableEq

/-- The type-checker and type-translator operations consumed by
maybeAddHeritageClauses; these live outside the embedded sources. The
declaredTypeSymbol field is the symbol of getDeclaredTypeOfSymbol, none
when that type has no symbol; symbolToString stands for the call with the
fully-qualified-name flag set. -/
structure TypeEnv where
  getSymbolAtLocation : HeritageExpr → Option Symbol
  declaredTypeSymbol : Symbol → Option Symbol
  getAliasedSymbol : Symbol → Symbol
  isBlackListed : Symbol → Bool
  symbolToString : Symbol → String

/-- The body of the inner loop of maybeAddHeritageClauses for a single
heritage type: resolves the symbol, follows a type alias to its declared
type and an alias to its target, drops blacklisted symbols, maps a class
symbol to an extends tag (or drops it), drops plain value symbols, and
otherwise emits the tag chosen by the declaration kind. The unresolved
case pushes the free-text note (the accompanying debug warning is not part
of the returned tags). -/
def heritageTypeTag (env : TypeEnv) (declKind : DeclKind) (classHasSuperClass : Bool)
    (token : HeritageToken) (impl : HeritageExpr) : Option Tag :=
  let tagName :=
    if declKind = DeclKind.interfaceDeclaration then ("extends") else ("implements")
  match env.getSymbolAtLocation impl with
  | none =>
    some { tagName := "",
           text := some (("NOTE: tsickle could not resolve supertype, ") ++
             ("class definition may be incomplete.\n")) }
  | some sym =>
    match (if sym.flags.typeAlias then env.declaredTypeSymbol sym else some sym) with
    | none => none
    | some a0 =>
      let al := if a0.flags.aliasFlag then env.getAliasedSymbol a0 else a0
      if env.isBlackListed al then none
      else if al.flags.classFlag then
        if ¬ (declKind = DeclKind.classDeclaration) then none
        else if classHasSuperClass ∧ ¬ (token = HeritageToken.extendsKeyword) then none
        else some { tagName := "extends", type := some (env.symbolToString al) }
      else if al.flags.valueFlag then none
      else some { tagName := tagName, type := some (env.symbolToString al) }

/-- The symbol-resolution pipeline of the inner loop in isolation: resolve,
follow a type alias to its declared type symbol, follow an alias. -/
def resolveHeritageAlias (env : TypeEnv) (impl : HeritageExpr) : Option Symbol :=
  match env.getSymbolAtLocation impl with
  | none => none
  | some sym =>
    match (if sym.flags.typeAlias then env.declaredTypeSymbol sym else some sym) with
    | none => none
    | some a0 => some (if a0.flags.aliasFlag then env.getAliasedSymbol a0 else a0)

/-- Whether the declaration is a class that has a heritage clause with the
extends token. -/
def classHasSuperClassOf (decl : TypeDecl) : Bool :=
  decide (decl.kind = DeclKind.classDeclaration) &&
    decl.heritageClauses.any (fun hc => decide (hc.token = HeritageToken.extendsKeyword))

/-- The tags contributed by one heritage clause: a heritage clause of a
non-ambient class whose token is not implements is preserved by the ES6
output and contributes nothing; otherwise each heritage type contributes
its tag. -/
def heritageClauseTags (env : TypeEnv) (decl : TypeDecl) (hc : HeritageClause) : List Tag :=
  if decl.kind = DeclKind.classDeclaration ∧ ¬ (hc.token = HeritageToken.implementsKeyword) ∧
      ¬ decl.ambient then []
  else hc.types.filterMap (heritageTypeTag env decl.kind (classHasSuperClassOf decl) hc.token)

/-- Adds heritage clause tags (extends, implements) to the given docTags
for decl. -/
def maybeAddHeritageClauses (env : TypeEnv) (docTags : List Tag) (decl : TypeDecl) : List Tag :=
  docTags ++ (decl.heritageClauses.map (heritageClauseTags env decl)).flatten

/-- Adds a template tag to docTags when decl has type parameters. -/
def maybeAddTemplateClause (docTags : List Tag) (decl : TypeDecl) : List Tag :=
  if decl.typeParameters = [] then docTags
  else docTags ++ [{ tagName := "template",
                     text := some (String.intercalate (", ") decl.typeParameters) }]

/-- Concrete symbol for the C1 counterexample: a class symbol named C. -/
def c1Sym : Symbol := ⟨0, "C", ⟨false, false, true, false⟩⟩

/-- Concrete checker environment for the C1 counterexample: every location
resolves to the class symbol c1Sym and nothing is blacklisted. -/
def c1Env : TypeEnv :=
  ⟨fun _ => some c1Sym, fun _ => none, fun s => s, fun _ => false, fun s => s.name⟩

/-- Concrete heritage expression for the C1 counterexample. -/
def c1Impl : HeritageExpr := ⟨0, "C"⟩

/-- Concrete declaration for the C1 counterexample: an interface with the
single heritage clause extends C where C is a class. -/
def c1Decl : TypeDecl :=
  ⟨DeclKind.interfaceDeclaration, some ("I"), [], false, false,
   [⟨HeritageToken.extendsKeyword, [c1Impl]⟩], []⟩

/-- Concrete symbol for the C1 witness: a class symbol named D. -/
def c1wSym : Symbol := ⟨1, "D", ⟨false, false, true, false⟩⟩

/-- Concrete checker environment for the C1 witness. -/
def c1wEnv : TypeEnv :=
  ⟨fun _ => some c1wSym, fun _ => none, fun s => s, fun _ => false, fun s => s.name⟩

/-- Concrete heritage expression for the C1 witness. -/
def c1wImpl : HeritageExpr := ⟨1, "D"⟩

/-- Concrete heritage clause for the C1 witness: an implements clause
naming the class D. -/
def c1wHc : HeritageClause := ⟨HeritageToken.implementsKeyword, [c1wImpl]⟩

/-- Concrete declaration for the C1 witness: a class with no runtime
extends clause that implements the class D. -/
def c1wDecl : TypeDecl :=
  ⟨DeclKind.classDeclaration, some ("C"), [], false, false, [c1wHc], []⟩

/-! ## createClosurePropertyDeclaration and createMemberTypeDeclaration -/

/-- Checks a string against the Closure property-name shape: a letter or
underscore followed by letters, digits and underscores. -/
def isValidClosurePropertyName (name : String) : Bool :=
  match name.toList with
  | [] => false
  | c :: rest =>
    (isAsciiLetter c || decide (c = '_')) &&
      rest.all (fun d => isAsciiLetter d || decide (d = '_') || decide ('0' ≤ d ∧ d ≤ '9'))

/-- The property name used by the transformer: the identifier text, a
string-literal text when it is a valid Closure property name, and nothing
otherwise. -/
def propertyName (prop : PropLike) : Option String :=
  match prop.name with
  | none => none
  | some (PropNameNode.identName t) => some t
  | some (PropNameNode.stringLiteralName t) =>
    if isValidClosurePropertyName t then some t else none
  | some (PropNameNode.otherName _) => none

/-- The module-type-translator operations used on properties; external to
the embedded sources. -/
structure MttEnv where
  typeToClosure : PropLike → String
  getJSDoc : PropLike → List Tag
  hasExportingDecorator : PropLike → Bool

/-- The property-access target of an emitted member statement: the class
name, optionally through prototype. -/
structure PropAccessExpr where
  className : String
  prototype : Bool
deriving Repr, DecidableEq

/-- A statement inside the member-type-declaration block. -/
inductive MemberStmt
  | commentStmt (text : String)
  | propertyStmt (access : PropAccessExpr) (name : String) (tags : List Tag)
  | abstractFnStmt (access : PropAccessExpr) (name : String) (paramNames : List String)
      (tags : List Tag)
deriving Repr, DecidableEq

/-- Emits the member statement for one property: an unnamed property
becomes a placeholder comment; a named one becomes a property access with
a type tag whose string gains the undefined alternative exactly when the
property is optional and its translated type is the unknown marker. -/
def createClosurePropertyDeclaration (env : MttEnv) (expr : PropAccessExpr)
    (prop : PropLike) : MemberStmt :=
  match propertyName prop with
  | none =>
    MemberStmt.commentStmt ((" Skipping unnamed member:\n") ++ escapeForCommentStr prop.srcText)
  | some name =>
    let t0 := env.typeToClosure prop
    let t1 := if prop.questionToken = true ∧ t0 = ("?") then t0 ++ ("|undefined") else t0
    let tags := env.getJSDoc prop ++ [{ tagName := "type", type := some t1 }] ++
      (if env.hasExportingDecorator prop then [({ tagName := "export" } : Tag)] else [])
    MemberStmt.propertyStmt expr name tags

/-- The member-level operations of the module type translator used for
abstract methods; external to the embedded sources. -/
structure MemberEnv where
  mtt : MttEnv
  getFunctionTypeJSDoc : Member → List Tag × List String
  hasExportingDecoratorFn : Member → Bool

/-- Whether a member kind is a property declaration or signature. -/
def isPropKind (k : MemberKind) : Bool :=
  decide (k = MemberKind.propertyDeclMember) || decide (k = MemberKind.propertySigMember)

/-- Whether a member kind is a method or accessor kind. -/
def isMethodKind (k : MemberKind) : Bool :=
  decide (k = MemberKind.methodDeclMember) || decide (k = MemberKind.methodSigMember) ||
    decide (k = MemberKind.getAccessorMember) || decide (k = MemberKind.setAccessorMember)

/-- Builds the member-type-declaration block for a class or interface:
classifies members into constructors, static and instance properties,
abstract methods (every method of an interface) and unhandled members,
takes the parameter properties of the first constructor, and emits one
dead-code statement per collected member. Returns none when there is
nothing to emit or the declaration is unnamed. -/
def createMemberTypeDeclaration (env : MemberEnv) (typeDecl : TypeDecl) :
    Option (List MemberStmt) :=
  let ctors := typeDecl.members.filter (fun m => decide (m.kind = MemberKind.ctorMember))
  let nonStaticProps := typeDecl.members.filter
    (fun m => isPropKind m.kind && decide (m.staticFlag = false))
  let staticProps := typeDecl.members.filter
    (fun m => isPropKind m.kind && decide (m.staticFlag = true))
  let abstractMethods := typeDecl.members.filter
    (fun m => isMethodKind m.kind &&
      (m.abstractFlag || decide (typeDecl.kind = DeclKind.interfaceDeclaration)))
  let unhandled := typeDecl.members.filter (fun m => decide (m.kind = MemberKind.otherMember))
  let paramProps : List CtorParam :=
    match ctors with
    | [] => []
    | ctor :: _ => ctor.ctorParameters.filter (fun p => p.fieldDeclModifiers)
  if nonStaticProps.length = 0 ∧ paramProps.length = 0 ∧ staticProps.length = 0 ∧
      abstractMethods.length = 0 then none
  else
    match typeDecl.name with
    | none => none
    | some className =>
      let staticPropAccess : PropAccessExpr := ⟨className, false⟩
      let instancePropAccess : PropAccessExpr := ⟨className, true⟩
      let propertyDecls :=
        staticProps.map (fun p => createClosurePropertyDeclaration env.mtt staticPropAccess p.prop)
          ++ nonStaticProps.map
            (fun p => createClosurePropertyDeclaration env.mtt instancePropAccess p.prop)
          ++ paramProps.map
            (fun p => createClosurePropertyDeclaration env.mtt instancePropAccess p.prop)
          ++ unhandled.map (fun p => MemberStmt.commentStmt
            ((" Skipping unhandled member: ") ++ escapeForCommentStr p.prop.srcText))
      let abstractDecls := abstractMethods.filterMap (fun m =>
        match propertyName m.prop with
        | none => none
        | some nm =>
          some (MemberStmt.abstractFnStmt instancePropAccess nm
            (env.getFunctionTypeJSDoc m).2
            ((env.getFunctionTypeJSDoc m).1 ++
              (if env.hasExportingDecoratorFn m then [({ tagName := "export" } : Tag)] else []))))
      some (propertyDecls ++ abstractDecls)

/-- Concrete environment for the C2 witness: the translated type of every
property is the unknown marker. -/
def c2wEnv : MttEnv := ⟨fun _ => ("?"), fun _ => [], fun _ => false⟩

/-- Concrete access expression for the C2 witness. -/
def c2wAccess : PropAccessExpr := ⟨"Foo", true⟩

/-- Concrete optional property of type any for the C2 witness. -/
def c2wProp : PropLike := ⟨some (PropNameNode.identName ("foo")), true, "foo?: any;"⟩

/-! ## visitInterfaceDeclaration -/

/-- A statement produced by the interface visitor. -/
inductive IfaceOut
  | singleLineCommentStmt (text : String)
  | functionDecl (exported : Bool) (name : String) (paramNames : List String) (tags : List Tag)
  | memberTypeDecl (stmts : List MemberStmt)
deriving Repr, DecidableEq

/-- The statements returned by a visitor together with the debug warnings
and errors it records on the module type translator. -/
structure VisitResult where
  stmts : List IfaceOut
  warnings : List String
  errors : List String
deriving Repr, DecidableEq

/-- The environment of the interface visitor: the heritage checker
operations, the member-declaration operations, symbol lookup for the
interface name, document-comment retrieval, and the untyped host flag. -/
structure IfaceEnv where
  typeEnv : TypeEnv
  memberEnv : MemberEnv
  getSymbolAtLocation : String → Option Symbol
  getJSDoc : TypeDecl → List Tag
  untyped : Bool

/-- Rewrites an interface declaration: an unresolvable name records an
error; a name whose symbol is also a value records a debug warning and
leaves only a warning comment; otherwise the interface becomes a
zero-argument function declaration carrying the record tag, the template
and heritage tags, followed by the member-type-declaration when present. -/
def visitInterfaceDeclaration (env : IfaceEnv) (iface : TypeDecl) : VisitResult :=
  match iface.name with
  | none => ⟨[], [], [("interface with no symbol")]⟩
  | some nm =>
    match env.getSymbolAtLocation nm with
    | none => ⟨[], [], [("interface with no symbol")]⟩
    | some sym =>
      if sym.flags.valueFlag then
        ⟨[IfaceOut.singleLineCommentStmt
            ((" WARNING: interface has both a type and a value, skipping emit"))],
         [(("type/symbol conflict for ") ++ sym.name ++ (", using \x7b?\x7d for now"))], []⟩
      else
        let tags0 := env.getJSDoc iface ++ [({ tagName := "record" } : Tag)]
        let tags1 := maybeAddTemplateClause tags0 iface
        let tags2 := if env.untyped then tags1 else maybeAddHeritageClauses env.typeEnv tags1 iface
        let decl := IfaceOut.functionDecl iface.exported nm [] tags2
        match createMemberTypeDeclaration env.memberEnv iface with
        | some ms => ⟨[decl, IfaceOut.memberTypeDecl ms], [], []⟩
        | none => ⟨[decl], [], []⟩

/-- Concrete member environment with trivial translator operations, used by
the concrete interface examples. -/
def trivialMemberEnv : MemberEnv :=
  ⟨⟨fun _ => ("?"), fun _ => [], fun _ => false⟩, fun _ => ([], []), fun _ => false⟩

/-- Concrete environment for the C6 counterexample. -/
def c6Env : IfaceEnv :=
  ⟨⟨fun _ => none, fun _ => none, fun s => s, fun _ => false, fun s => s.name⟩,
   trivialMemberEnv,
   fun _ => some ⟨2, "I", ⟨false, false, false, false⟩⟩,
   fun _ => [], false⟩

/-- Concrete empty interface for the C6 counterexample. -/
def c6Iface : TypeDecl :=
  ⟨DeclKind.interfaceDeclaration, some ("I"), [], false, false, [], []⟩

/-- Concrete environment for the C5 witness: the interface name resolves to
a symbol that is also a value. -/
def c5wEnv : IfaceEnv :=
  ⟨⟨fun _ => none, fun _ => none, fun s => s, fun _ => false, fun s => s.name⟩,
   trivialMemberEnv,
   fun _ => some ⟨3, "I", ⟨false, false, false, true⟩⟩,
   fun _ => [], false⟩

/-- Concrete interface for the C5 witness. -/
def c5wIface : TypeDecl :=
  ⟨DeclKind.interfaceDeclaration, some ("I"), [], false, false, [], []⟩

/-! ## visitVariableStatement -/

/-- A variable binding name: a plain identifier or a binding pattern
(object or array destructuring). -/
inductive BindingName
  | identBinding (nameText : String)
  | patternBinding (srcText : String)
deriving Repr, DecidableEq

/-- One variable declarator: its identity, binding and whether it has an
initializer. -/
structure VarDecl where
  id : Nat
  name : BindingName
  hasInitializer : Bool
deriving Repr, DecidableEq

/-- A synthetic leading comment attached to a statement; only the text is
inspected by the embedded code. -/
structure SynthComment where
  commentText : String
deriving Repr, DecidableEq

/-- A variable statement: its declarator list, the combined node flags of
the declaration list, and its synthetic leading comments (none when the
node carries no synthetic comments). -/
structure VarStatement where
  decls : List VarDecl
  flags : Nat
  leadingComments : Option (List SynthComment)
deriving Repr, DecidableEq

/-- The translator operations used by the variable visitor; external to the
embedded sources. The typeToClosure field is applied to the original node
of the declarator. -/
structure VarEnv where
  getJSDocStmt : VarStatement → List Tag
  isBlackListed : VarDecl → Bool
  typeToClosure : VarDecl → String

/-- A statement produced by the variable visitor: the not-emitted comment
holder, or one single-declarator variable statement with its tags. -/
inductive VarOut
  | commentHolder (comments : List SynthComment)
  | varStmtOut (decl : VarDecl) (flags : Nat) (tags : List Tag)
deriving Repr, DecidableEq

/-- The type tags attached to one declarator: a plain identifier receives a
type tag with the translated type, unless it both has an initializer and a
blacklisted declared type; a binding pattern receives nothing. -/
def declTypeTags (env : VarEnv) (decl : VarDecl) : List Tag :=
  match decl.name with
  | BindingName.identBinding _ =>
    if decl.hasInitializer = true ∧ env.isBlackListed decl = true then []
    else [{ tagName := "type", type := some (env.typeToClosure decl) }]
  | BindingName.patternBinding _ => []

/-- The loop over the declarator list: the statement-level tags are
attached to the first created statement only, and each declarator
contributes its own type tags after them. -/
def visitVarDeclList (env : VarEnv) (flags : Nat) :
    Option (List Tag) → List VarDecl → List VarOut
  | _, [] => []
  | tags, d :: rest =>
    let localTags := (match tags with | some ts => ts | none => []) ++ declTypeTags env d
    VarOut.varStmtOut d flags localTags :: visitVarDeclList env flags none rest

/-- The first character test of the comment filter: keeps the comments that
do not start with a star (the non-JSDoc ones). -/
def notJSDocComment (c : SynthComment) : Bool :=
  match c.commentText.toList with
  | [] => true
  | ch :: _ => decide (¬ ch = '*')

/-- Flattens a variable statement into one statement per declarator, with
the preceding tags on the first one and the non-JSDoc leading comments
preserved on a not-emitted holder statement. -/
def visitVariableStatement (env : VarEnv) (vs : VarStatement) : List VarOut :=
  let holder : List VarOut :=
    match vs.leadingComments with
    | none => []
    | some leading => [VarOut.commentHolder (leading.filter notJSDocComment)]
  holder ++ visitVarDeclList env vs.flags (some (env.getJSDocStmt vs)) vs.decls

/-- Projects the single-declarator variable statements out of the visitor
output, in order, with their tags. -/
def outVarStmts (l : List VarOut) : List (VarDecl × List Tag) :=
  l.filterMap (fun o =>
    match o with
    | VarOut.varStmtOut d _ tags => some (d, tags)
    | VarOut.commentHolder _ => none)

/-- Concrete environment for the C3 witness: the lone declarator has a
blacklisted type rendered as the unknown marker. -/
def c3wEnv : VarEnv := ⟨fun _ => [], fun _ => true, fun _ => ("?")⟩

/-- Concrete variable statement for the C3 witness: one identifier
declarator with no initializer and a blacklisted type. -/
def c3wStmt : VarStatement :=
  ⟨[⟨0, BindingName.identBinding ("x"), false⟩], 0, none⟩

/-! ## visitTypeAliasDeclaration -/

/-- The output module format, as far as the embedded code distinguishes it:
CommonJS or anything else. -/
inductive ModuleKind
  | commonJS
  | otherKind
deriving Repr, DecidableEq

/-- A type alias declaration: its name and export modifier flag. -/
structure TypeAliasDecl where
  name : String
  exported : Bool
deriving Repr, DecidableEq

/-- The environment of the type-alias visitor: symbol lookup (the must
variant, which always yields a symbol), the configured module format, the
untyped host flag, and the translator operations. The registration of
blacklisted type parameters only mutates translator state and is not part
of the emitted statements. -/
structure AliasEnv where
  mustGetSymbolAtLocation : TypeAliasDecl → Symbol
  moduleKind : ModuleKind
  untyped : Bool
  typeToClosure : TypeAliasDecl → String
  getJSDoc : TypeAliasDecl → List Tag

/-- A statement produced by the type-alias visitor: a property access on
the exports object carrying its tags. -/
inductive AliasOut
  | exportsPropStmt (name : String) (tags : List Tag)
deriving Repr, DecidableEq

/-- Emits the typedef statement for a type alias: nothing when the symbol
is also a value, when the alias is not exported, or when the module format
is not CommonJS; otherwise one exports property access annotated with a
typedef tag carrying the resolved type (the unknown marker when untyped). -/
def visitTypeAliasDeclaration (env : AliasEnv) (ta : TypeAliasDecl) : List AliasOut :=
  if (env.mustGetSymbolAtLocation ta).flags.valueFlag then []
  else if ¬ ta.exported then []
  else if ¬ (env.moduleKind = ModuleKind.commonJS) then []
  else
    let typeStr := if env.untyped then ("?") else env.typeToClosure ta
    let tags := env.getJSDoc ta ++ [{ tagName := "typedef", type := some typeStr }]
    [AliasOut.exportsPropStmt ta.name tags]

/-- Concrete environment for the C4 witness. -/
def c4wEnv : AliasEnv :=
  ⟨fun _ => ⟨4, "T", ⟨true, false, false, false⟩⟩, ModuleKind.commonJS, false,
   fun _ => ("(!X|!Y)"), fun _ => []⟩

/-- Concrete exported type alias for the C4 witness. -/
def c4wAlias : TypeAliasDecl := ⟨"T", true⟩

/-! ## Externs generator: overloaded function declarations -/

/-- A function signature: named parameters with their translated type
strings, and the translated return type string. -/
structure FnSig where
  params : List (String × String)
  ret : String
deriving Repr, DecidableEq

/-- A function declaration statement in a declaration file: its identity,
optional name, and signature. -/
structure ExternsFnDecl where
  id : Nat
  name : Option String
  sig : FnSig
deriving Repr, DecidableEq

/-- A top-level statement as dispatched by the externs visitor: a function
declaration, or any other statement kind (which the visitor renders as a
TODO comment). -/
inductive ExternsStmt
  | fnDeclStmt (d : ExternsFnDecl)
  | otherStmt (kindName : String)
deriving Repr, DecidableEq

/-- The checker operation used by the function-declaration case: the
declarations of the symbol of a name, already filtered to function
declarations, in declaration order. -/
structure ExternsEnv where
  symbolFnDecls : String → List ExternsFnDecl

/-- Deduplication keeping the first occurrence of each type string, used
when forming a union of overload types. -/
def dedupKeepFirst : List String → List String
  | [] => []
  | x :: xs => x :: (dedupKeepFirst xs).filter (fun y => decide (¬ y = x))

/-- The AT union syntax over a list of type strings: a single distinct
type stands alone, several are parenthesized and pipe-separated. -/
def unionTypeStr (types : List String) : String :=
  match dedupKeepFirst types with
  | [t] => t
  | ts => ("(") ++ String.intercalate ("|") ts ++ (")")

/-- Modelled from the spec: getFunctionTypeJSDoc lives in the Module Type
Translator, which is not among the provided sources. Per the spec it
merges the signatures of the given overload declarations into one
composite signature: each parameter type is the union of the respective
parameter types across overloads (padded where arities differ), the
return type is the union of all return types, and the returned parameter
names are the parameter names of the first overload. -/
def getFunctionTypeJSDocModel (sigs : List FnSig) : List Tag × List String :=
  match sigs with
  | [] => ([], [])
  | first :: _ =>
    let arity := (sigs.map (fun s => s.params.length)).foldl Nat.max 0
    let paramTags := (List.range arity).map (fun i =>
      let types := sigs.filterMap (fun s => (s.params.get? i).map (fun p => p.2))
      let nm := match first.params.get? i with
        | some p => p.1
        | none => ("p") ++ (toString i)
      ({ tagName := "param", type := some (unionTypeStr types),
         parameterName := some nm } : Tag))
    let retTag : Tag := { tagName := "return",
                          type := some (unionTypeStr (sigs.map (fun s => s.ret))) }
    (paramTags ++ [retTag], first.params.map (fun p => p.1))

/-- An output item of the externs generator: a function stub (the merged
comment tags followed by the function line), a TODO comment, or an error
diagnostic. -/
inductive ExternsOut
  | fnStub (namespacePath : List String) (name : String) (paramNames : List String)
      (tags : List Tag)
  | todoComment (text : String)
  | errorDiag (text : String)
deriving Repr, DecidableEq

/-- The function-declaration case of the externs visitor: an anonymous
function records an error; otherwise the overload declarations of the
symbol are gathered and the merged stub is emitted only when the visited
declaration is the first of them. Any other statement kind becomes a TODO
comment. -/
def visitExternsStmt (env : ExternsEnv) (namespacePath : List String)
    (s : ExternsStmt) : List ExternsOut :=
  match s with
  | ExternsStmt.fnDeclStmt fnDecl =>
    match fnDecl.name with
    | none => [ExternsOut.errorDiag ("anonymous function in externs")]
    | some nm =>
      let decls := env.symbolFnDecls nm
      if decls.head? = some fnDecl then
        [ExternsOut.fnStub namespacePath nm
          (getFunctionTypeJSDocModel (decls.map (fun d => d.sig))).2
          (getFunctionTypeJSDocModel (decls.map (fun d => d.sig))).1]
      else []
  | ExternsStmt.otherStmt k => [ExternsOut.todoComment k]

/-- The externs generator over the top-level statements at the root
namespace: the per-statement outputs in order. -/
def createExternsFns (env : ExternsEnv) (stmts : List ExternsStmt) : List ExternsOut :=
  (stmts.map (visitExternsStmt env [])).flatten

/-- Extracts a function declaration of the given name from a statement. -/
def fnDeclOfName (nm : String) (s : ExternsStmt) : Option ExternsFnDecl :=
  match s with
  | ExternsStmt.fnDeclStmt d => if d.name = some nm then some d else none
  | ExternsStmt.otherStmt _ => none

/-- Whether an output item is a function stub with the given name. -/
def isFnStubNamed (nm : String) (o : ExternsOut) : Bool :=
  match o with
  | ExternsOut.fnStub _ n _ _ => decide (n = nm)
  | _ => false

/-- The number of function stubs with the given name in an output list. -/
def fnStubCount (nm : String) (out : List ExternsOut) : Nat :=
  out.countP (isFnStubNamed nm)

/-- First overload of f for the C7 witness. -/
def c7d1 : ExternsFnDecl := ⟨1, some ("f"), ⟨[(("x"), ("number"))], "void"⟩⟩

/-- Second overload of f for the C7 witness. -/
def c7d2 : ExternsFnDecl := ⟨2, some ("f"), ⟨[(("x"), ("string"))], "number"⟩⟩

/-- Concrete checker environment for the C7 witness. -/
def c7Env : ExternsEnv := ⟨fun n => if n = ("f") then [c7d1, c7d2] else []⟩

/-- Concrete statement list for the C7 witness: the two overloads of f. -/
def c7Stmts : List ExternsStmt := [ExternsStmt.fnDeclStmt c7d1, ExternsStmt.fnDeclStmt c7d2]

end Tsickle

/- THEOREMS -/

namespace Tsickle

theorem hasPair_nil (a b : Char) : hasPair a b [] = false := rfl

theorem hasPair_one (a b x : Char) : hasPair a b [x] = false := rfl

theorem hasPair_cons_cons (a b x y : Char) (rest : List Char) :
    hasPair a b (x :: y :: rest) = ((x == a && y == b) || hasPair a b (y :: rest)) := rfl

theorem hasPair_cons_head (a b x : Char) (t : List Char) :
    hasPair a b (x :: t) = ((x == a && t.head? == some b) || hasPair a b t) := by
  cases t with
  | nil => simp [hasPair]
  | cons y r => simp [hasPair_cons_cons, hasPair]

theorem hasPair_tail (a b x : Char) (t : List Char)
    (h : hasPair a b (x :: t) = false) : hasPair a b t = false := by
  rw [hasPair_cons_head] at h
  exact (Bool.or_eq_false_iff.mp h).2

theorem hasPair_underscore_cons (a b : Char) (ha : a ≠ '_') (t : List Char) :
    hasPair a b ('_' :: t) = hasPair a b t := by
  rw [hasPair_cons_head]
  have : ('_' == a) = false := by
    simp only [beq_eq_false_iff_ne, ne_eq]
    exact fun h => ha h.symm
  simp [this]

theorem replaceSub2_nil (a b : Char) : replaceSub2 a b [] = [] := rfl

theorem replaceSub2_one (a b x : Char) : replaceSub2 a b [x] = [x] := rfl

theorem replaceSub2_cons_cons (a b x y : Char) (rest : List Char) :
    replaceSub2 a b (x :: y :: rest) =
      if x = a ∧ y = b then '_' :: '_' :: replaceSub2 a b rest
      else x :: replaceSub2 a b (y :: rest) := rfl

theorem replaceSub2_head (a b x : Char) (l : List Char) :
    (replaceSub2 a b (x :: l)).head? = some x ∨ (replaceSub2 a b (x :: l)).head? = some '_' := by
  cases l with
  | nil => left; rfl
  | cons y rest =>
    rw [replaceSub2_cons_cons]
    by_cases h : x = a ∧ y = b
    · right; simp [h]
    · left; simp [h]

theorem hasPair_replaceSub2_self_aux (a b : Char) (ha : a ≠ '_') (hb : b ≠ '_') :
    ∀ n (l : List Char), l.length ≤ n → hasPair a b (replaceSub2 a b l) = false := by
  intro n
  induction n with
  | zero =>
    intro l hl
    have : l = [] := List.eq_nil_of_length_eq_zero (Nat.le_zero.mp hl)
    subst this
    simp [replaceSub2_nil, hasPair_nil]
  | succ n ih =>
    intro l hl
    match l with
    | [] => simp [replaceSub2_nil, hasPair_nil]
    | [x] => simp [replaceSub2_one, hasPair_one]
    | x :: y :: rest =>
      rw [replaceSub2_cons_cons]
      by_cases h : x = a ∧ y = b
      · rw [if_pos h]
        rw [hasPair_underscore_cons a b ha, hasPair_underscore_cons a b ha]
        exact ih rest (by simp at hl; omega)
      · rw [if_neg h]
        rw [hasPair_cons_head]
        have htail : hasPair a b (replaceSub2 a b (y :: rest)) = false :=
          ih (y :: rest) (by simp at hl ⊢; omega)
        have hfirst : (x == a && (replaceSub2 a b (y :: rest)).head? == some b) = false := by
          by_cases hx : x = a
          · have hy : y ≠ b := fun hyb => h ⟨hx, hyb⟩
            rcases replaceSub2_head a b y rest with hh | hh
            · rw [hh]
              have : (some y == some b) = false := by
                simp only [beq_eq_false_iff_ne, ne_eq, Option.some.injEq]
                exact hy
              simp [this]
            · rw [hh]
              have : (some '_' == some b) = false := by
                simp only [beq_eq_false_iff_ne, ne_eq, Option.some.injEq]
                exact fun hc => hb hc.symm
              simp [this]
          · have : (x == a) = false := by simp [hx]
            simp [this]
        rw [hfirst, htail]
        rfl

theorem hasPair_replaceSub2_other_aux (a b c d : Char) (ha : a ≠ '_') (hb : b ≠ '_') :
    ∀ n (l : List Char), l.length ≤ n → hasPair a b l = false →
      hasPair a b (replaceSub2 c d l) = false := by
  intro n
  induction n with
  | zero =>
    intro l hl _
    have : l = [] := List.eq_nil_of_length_eq_zero (Nat.le_zero.mp hl)
    subst this
    simp [replaceSub2_nil, hasPair_nil]
  | succ n ih =>
    intro l hl hnp
    match l with
    | [] => simp [replaceSub2_nil, hasPair_nil]
    | [x] => simp [replaceSub2_one, hasPair_one]
    | x :: y :: rest =>
      rw [replaceSub2_cons_cons]
      have hyt : hasPair a b (y :: rest) = false := hasPair_tail a b x _ hnp
      by_cases h : x = c ∧ y = d
      · rw [if_pos h]
        rw [hasPair_underscore_cons a b ha, hasPair_underscore_cons a b ha]
        exact ih rest (by simp at hl; omega) (hasPair_tail a b y rest hyt)
      · rw [if_neg h]
        rw [hasPair_cons_head]
        have htail : hasPair a b (replaceSub2 c d (y :: rest)) = false :=
          ih (y :: rest) (by simp at hl ⊢; omega) hyt
        have hfirst : (x == a && (replaceSub2 c d (y :: rest)).head? == some b) = false := by
          by_cases hx : x = a
          · have hxy : (x == a && y == b) = false := by
              rw [hasPair_cons_cons] at hnp
              exact (Bool.or_eq_false_iff.mp hnp).1
            have hy : y ≠ b := by
              intro hyb
              rw [hx, hyb] at hxy
              simp at hxy
            rcases replaceSub2_head c d y rest with hh | hh
            · rw [hh]
              have : (some y == some b) = false := by
                simp only [beq_eq_false_iff_ne, ne_eq, Option.some.injEq]
                exact hy
              simp [this]
            · rw [hh]
              have : (some '_' == some b) = false := by
                simp only [beq_eq_false_iff_ne, ne_eq, Option.some.injEq]
                exact fun hc2 => hb hc2.symm
              simp [this]
          · have : (x == a) = false := by simp [hx]
            simp [this]
        rw [hfirst, htail]
        rfl

theorem hasPair_of_split (a b : Char) :
    ∀ (u v : List Char), hasPair a b (u ++ a :: b :: v) = true := by
  intro u
  induction u with
  | nil => intro v; simp [hasPair_cons_cons]
  | cons x u' ih =>
    intro v
    rw [List.cons_append, hasPair_cons_head, ih v]
    simp

/-- C10: for every input string, `escapeForComment` returns a string in
which neither the two-character substring slash-star nor star-slash occurs,
so the result can always be embedded inside a block comment. -/
theorem escapeForComment_no_delimiters (s : List Char) :
    ¬ (['/', '*'] <:+: escapeForComment s) ∧ ¬ (['*', '/'] <:+: escapeForComment s) := by
  have h1 : hasPair '/' '*' (escapeForComment s) = false := by
    have base : hasPair '/' '*' (replaceSub2 '/' '*' s) = false :=
      hasPair_replaceSub2_self_aux '/' '*' (by decide) (by decide) s.length s le_rfl
    exact hasPair_replaceSub2_other_aux '/' '*' '*' '/' (by decide) (by decide)
      (replaceSub2 '/' '*' s).length _ le_rfl base
  have h2 : hasPair '*' '/' (escapeForComment s) = false :=
    hasPair_replaceSub2_self_aux '*' '/' (by decide) (by decide)
      (replaceSub2 '/' '*' s).length _ le_rfl
  constructor
  · intro hinf
    obtain ⟨u, v, huv⟩ := hinf
    have : hasPair '/' '*' (escapeForComment s) = true := by
      rw [← huv]
      have : u ++ ['/', '*'] ++ v = u ++ '/' :: '*' :: v := by simp
      rw [this]
      exact hasPair_of_split '/' '*' u v
    rw [h1] at this
    exact Bool.false_ne_true this
  · intro hinf
    obtain ⟨u, v, huv⟩ := hinf
    have : hasPair '*' '/' (escapeForComment s) = true := by
      rw [← huv]
      have : u ++ ['*', '/'] ++ v = u ++ '*' :: '/' :: v := by simp
      rw [this]
      exact hasPair_of_split '*' '/' u v
    rw [h2] at this
    exact Bool.false_ne_true this

theorem replaceFirstUnderscore_of_not_mem (s : List Char) (h : '_' ∉ s) :
    replaceFirstUnderscore s = s := by
  induction s with
  | nil => rfl
  | cons c rest ih =>
    have hc : c ≠ '_' := fun hc => h (hc ▸ List.mem_cons_self c rest)
    have hrest : '_' ∉ rest := fun hm => h (List.mem_cons_of_mem c hm)
    simp [replaceFirstUnderscore, hc, ih hrest]

theorem replaceFirstUnderscore_eq_spec (s : List Char) :
    replaceFirstUnderscore s = doubleFirstUnderscoreSpec s := by
  induction s with
  | nil => rfl
  | cons c rest ih =>
    by_cases hc : c = '_'
    · subst hc
      have hm : '_' ∈ '_' :: rest := List.mem_cons_self _ _
      simp [replaceFirstUnderscore, doubleFirstUnderscoreSpec, hm, List.takeWhile, List.dropWhile]
    · by_cases hr : '_' ∈ rest
      · have hm : '_' ∈ c :: rest := List.mem_cons_of_mem c hr
        have hne : (c != '_') = true := by simp [hc]
        simp only [replaceFirstUnderscore, if_neg hc, doubleFirstUnderscoreSpec, if_pos hm,
          List.takeWhile, List.dropWhile, hne, ih, if_pos hr, cond_true]
        simp
      · have hm : '_' ∉ c :: rest := by
          intro hmem
          rcases List.mem_cons.mp hmem with h1 | h1
          · exact hc h1.symm
          · exact hr h1
        simp [replaceFirstUnderscore, hc, doubleFirstUnderscoreSpec, hm,
          replaceFirstUnderscore_of_not_mem rest hr, ih,
          doubleFirstUnderscoreSpec, if_neg hr]

/-- C8 counterexample: on the module name a_b_c the source doubles only the
first underscore, producing a__b_c, while the claim (every underscore
doubled) would produce a__b__c. -/
theorem mangleModuleName_counterexample :
    mangleModuleName ("a_b_c").toList = ("a__b_c").toList ∧
    mangleEveryUnderscoreClaim ("a_b_c").toList = ("a__b__c").toList ∧
    mangleModuleName ("a_b_c").toList ≠ mangleEveryUnderscoreClaim ("a_b_c").toList := by
  refine ⟨by decide, by decide, by decide⟩

/-- C8 (amended): the emitted child key mangles the module name by doubling
only the FIRST underscore and then replacing every non-letter character by
an underscore; in particular foo-bar/baz mangles to foo_bar_baz under
tsickle_declare_module. -/
theorem mangleModuleName_amended :
    (∀ s : List Char, mangleModuleName s = nonLetterToUnderscore (doubleFirstUnderscoreSpec s)) ∧
    mangleModuleName ("foo-bar/baz").toList = ("foo_bar_baz").toList ∧
    declaredModuleChildKey ("foo-bar/baz") = ("tsickle_declare_module.foo_bar_baz") := by
  refine ⟨?_, by decide, by decide⟩
  intro s
  unfold mangleModuleName
  rw [replaceFirstUnderscore_eq_spec]

theorem synthesizeCommentStep_eq (src : List Char) (acc : List SynthesizedComment)
    (cr : CommentRange) :
    synthesizeCommentStep src acc cr = acc ++ (synthesizeOneComment src cr).toList := by
  unfold synthesizeCommentStep synthesizeOneComment
  cases cr.kind with
  | multiLineCommentTrivia => simp
  | singleLineCommentTrivia =>
    by_cases h : (['/', '/', '/']).isPrefixOf
        (trimChars (substringChars src cr.pos cr.endPos)) = true
    · simp [h]
    · simp only [Bool.not_eq_true] at h
      simp [h]

theorem synthesizeCommentRanges_foldl_aux (src : List Char) :
    ∀ (parsed : List CommentRange) (acc : List SynthesizedComment),
      parsed.foldl (synthesizeCommentStep src) acc =
        acc ++ parsed.filterMap (synthesizeOneComment src) := by
  intro parsed
  induction parsed with
  | nil => intro acc; simp
  | cons cr rest ih =>
    intro acc
    rw [List.foldl_cons, ih, synthesizeCommentStep_eq, List.filterMap_cons]
    cases h : synthesizeOneComment src cr with
    | none => simp
    | some sc => simp

/-- C9: synthesizeCommentRanges omits every single-line comment whose
trimmed text starts with three slashes and returns every other comment
range, in order, as a synthesized comment with its comment delimiters
stripped. -/
theorem synthesizeCommentRanges_filterMap (src : List Char) (parsed : List CommentRange) :
    synthesizeCommentRanges src parsed = parsed.filterMap (synthesizeOneComment src) := by
  unfold synthesizeCommentRanges
  rw [synthesizeCommentRanges_foldl_aux]
  simp

/-- C1 counterexample: an interface whose single heritage type resolves to
a class symbol. The declaring declaration is not a class with a runtime
extends clause facing an implements clause, so the claim promises an
extends tag, yet maybeAddHeritageClauses emits no tag at all. -/
theorem heritage_interface_extends_class_counterexample :
    resolveHeritageAlias c1Env c1Impl = some c1Sym ∧
    c1Sym.flags.classFlag = true ∧
    c1Decl.kind = DeclKind.interfaceDeclaration ∧
    ¬ (c1Decl.kind = DeclKind.classDeclaration) ∧
    maybeAddHeritageClauses c1Env [] c1Decl = [] := by
  refine ⟨by decide, by decide, by decide, by decide, by decide⟩

/-- C1 (amended): among heritage clauses the function examines (a heritage
clause of a non-ambient class whose token is not implements contributes
nothing, since the runtime extends is preserved), a heritage type whose
alias-resolved, non-blacklisted symbol is a class yields no tag when the
declaring declaration is an interface, yields no tag when the declaring
class already has a runtime extends clause and the current clause is an
implements clause, and in every other case yields a tag named extends,
even in an implements position. -/
theorem heritage_class_symbol_extends (env : TypeEnv) (decl : TypeDecl) (hc : HeritageClause)
    (impl : HeritageExpr) (sym : Symbol)
    (hres : resolveHeritageAlias env impl = some sym)
    (hcls : sym.flags.classFlag = true)
    (hbl : env.isBlackListed sym = false) :
    (decl.kind = DeclKind.classDeclaration → ¬ (hc.token = HeritageToken.implementsKeyword) →
      decl.ambient = false → heritageClauseTags env decl hc = []) ∧
    heritageTypeTag env decl.kind (classHasSuperClassOf decl) hc.token impl =
      (if decl.kind = DeclKind.interfaceDeclaration then none
       else if classHasSuperClassOf decl = true ∧ ¬ (hc.token = HeritageToken.extendsKeyword)
       then none
       else some { tagName := "extends", type := some (env.symbolToString sym) }) := by
  constructor
  · intro h1 h2 h3
    unfold heritageClauseTags
    rw [if_pos]
    exact ⟨h1, h2, by simp [h3]⟩
  · unfold resolveHeritageAlias at hres
    unfold heritageTypeTag
    cases hg : env.getSymbolAtLocation impl with
    | none => rw [hg] at hres; simp at hres
    | some sym0 =>
      rw [hg] at hres
      dsimp only at hres
      dsimp only
      cases ha : (if sym0.flags.typeAlias = true then env.declaredTypeSymbol sym0
          else some sym0) with
      | none => rw [ha] at hres; simp at hres
      | some a0 =>
        rw [ha] at hres
        simp only [Option.some.injEq] at hres
        dsimp only
        rw [hres, hbl]
        simp only [Bool.false_eq_true, if_false, hcls, if_true]
        cases hk : decl.kind with
        | interfaceDeclaration => simp
        | classDeclaration => simp

/-- C1 witness: a class with no runtime extends clause that implements the
class D receives a tag named extends for that heritage type. -/
theorem heritage_class_symbol_extends_witness :
    heritageTypeTag c1wEnv c1wDecl.kind (classHasSuperClassOf c1wDecl) c1wHc.token c1wImpl =
      some { tagName := "extends", type := some ("D") } := by
  have h := (heritage_class_symbol_extends c1wEnv c1wDecl c1wHc c1wImpl c1wSym
    (by decide) (by decide) (by decide)).2
  rw [h]
  decide

/-- C2: a named property placed into a member-type-declaration is emitted
with a type tag whose string is exactly the questionable-undefined form
when the property is optional and its translated type is the unknown
marker, and is the translated type unchanged in every other case. -/
theorem property_type_tag (env : MttEnv) (expr : PropAccessExpr) (prop : PropLike)
    (nm : String) (hname : propertyName prop = some nm) :
    createClosurePropertyDeclaration env expr prop =
      MemberStmt.propertyStmt expr nm
        (env.getJSDoc prop ++
          [{ tagName := "type",
             type := some (if prop.questionToken = true ∧ env.typeToClosure prop = ("?")
               then ("?|undefined") else env.typeToClosure prop) }] ++
          (if env.hasExportingDecorator prop then [({ tagName := "export" } : Tag)] else [])) := by
  unfold createClosurePropertyDeclaration
  rw [hname]
  dsimp only
  by_cases h : prop.questionToken = true ∧ env.typeToClosure prop = ("?")
  · rw [if_pos h, if_pos h, h.2]
    have hs : ((("?") ++ ("|undefined")) : String) = ("?|undefined") := by decide
    rw [hs]
  · rw [if_neg h, if_neg h]

/-- C2 witness: the optional property foo of type any is emitted with the
type string of the unknown marker followed by the undefined alternative. -/
theorem property_type_tag_witness :
    createClosurePropertyDeclaration c2wEnv c2wAccess c2wProp =
      MemberStmt.propertyStmt c2wAccess ("foo")
        [{ tagName := "type", type := some ("?|undefined") }] := by
  have h := property_type_tag c2wEnv c2wAccess c2wProp ("foo") (by decide)
  rw [h]
  decide

theorem mem_maybeAddTemplateClause {t : Tag} (docTags : List Tag) (d : TypeDecl)
    (h : t ∈ docTags) : t ∈ maybeAddTemplateClause docTags d := by
  unfold maybeAddTemplateClause
  split
  · exact h
  · exact List.mem_append_left _ h

theorem mem_maybeAddHeritageClauses {t : Tag} (env : TypeEnv) (docTags : List Tag)
    (d : TypeDecl) (h : t ∈ docTags) : t ∈ maybeAddHeritageClauses env docTags d :=
  List.mem_append_left _ h

theorem createMemberTypeDeclaration_of_no_members (env : MemberEnv) (d : TypeDecl)
    (h : d.members = []) : createMemberTypeDeclaration env d = none := by
  unfold createMemberTypeDeclaration
  rw [h]
  simp

/-- C5: an interface whose name resolves to a symbol that is not also a
value is replaced by a zero-argument function declaration of the same name
whose leading tags include the record tag; when the symbol is also a value
only a warning comment is emitted and a debug warning is recorded. -/
theorem interface_value_conflict (env : IfaceEnv) (iface : TypeDecl) (nm : String)
    (sym : Symbol) (hn : iface.name = some nm) (hs : env.getSymbolAtLocation nm = some sym) :
    (sym.flags.valueFlag = false →
      ∃ tags rest,
        (visitInterfaceDeclaration env iface).stmts =
          IfaceOut.functionDecl iface.exported nm [] tags :: rest ∧
        ({ tagName := "record" } : Tag) ∈ tags ∧
        (rest = [] ∨ ∃ ms, rest = [IfaceOut.memberTypeDecl ms])) ∧
    (sym.flags.valueFlag = true →
      (visitInterfaceDeclaration env iface).stmts =
        [IfaceOut.singleLineCommentStmt
          ((" WARNING: interface has both a type and a value, skipping emit"))] ∧
      (visitInterfaceDeclaration env iface).warnings =
        [(("type/symbol conflict for ") ++ sym.name ++ (", using \x7b?\x7d for now"))]) := by
  unfold visitInterfaceDeclaration
  rw [hn]
  dsimp only
  rw [hs]
  dsimp only
  constructor
  · intro hv
    rw [hv]
    simp only [Bool.false_eq_true, if_false]
    have hrec : ({ tagName := "record" } : Tag) ∈
        env.getJSDoc iface ++ [({ tagName := "record" } : Tag)] :=
      List.mem_append_right _ (List.mem_singleton.mpr rfl)
    have hrec1 := mem_maybeAddTemplateClause
      (env.getJSDoc iface ++ [({ tagName := "record" } : Tag)]) iface hrec
    cases hm : createMemberTypeDeclaration env.memberEnv iface with
    | none =>
      refine ⟨_, [], rfl, ?_, Or.inl rfl⟩
      by_cases hu : env.untyped = true
      · simp only [hu, if_true]
        exact hrec1
      · simp only [Bool.not_eq_true] at hu
        simp only [hu, Bool.false_eq_true, if_false]
        exact mem_maybeAddHeritageClauses env.typeEnv _ iface hrec1
    | some ms =>
      refine ⟨_, [IfaceOut.memberTypeDecl ms], rfl, ?_, Or.inr ⟨ms, rfl⟩⟩
      by_cases hu : env.untyped = true
      · simp only [hu, if_true]
        exact hrec1
      · simp only [Bool.not_eq_true] at hu
        simp only [hu, Bool.false_eq_true, if_false]
        exact mem_maybeAddHeritageClauses env.typeEnv _ iface hrec1
  · intro hv
    rw [hv]
    simp

/-- C5 witness: an interface named I whose symbol is also a value produces
only the warning comment, and the type-symbol conflict debug warning is
recorded. -/
theorem interface_value_conflict_witness :
    (visitInterfaceDeclaration c5wEnv c5wIface).stmts =
      [IfaceOut.singleLineCommentStmt
        ((" WARNING: interface has both a type and a value, skipping emit"))] ∧
    (visitInterfaceDeclaration c5wEnv c5wIface).warnings =
      [("type/symbol conflict for I, using \x7b?\x7d for now")] := by
  have h := (interface_value_conflict c5wEnv c5wIface ("I")
    (⟨3, "I", ⟨false, false, false, true⟩⟩ : Symbol) (by decide) (by decide)).2 (by decide)
  refine ⟨h.1, ?_⟩
  rw [h.2]
  decide

/-- C6 counterexample: an empty interface processed by the annotation
transformer is emitted with only the record tag; no struct tag is present,
contrary to the claim. -/
theorem empty_interface_no_struct_counterexample :
    (visitInterfaceDeclaration c6Env c6Iface).stmts =
      [IfaceOut.functionDecl false ("I") [] [({ tagName := "record" } : Tag)]] ∧
    (∀ t ∈ ([({ tagName := "record" } : Tag)] : List Tag), ¬ t.tagName = ("struct")) := by
  refine ⟨by decide, by decide⟩

/-- C6 (amended): an empty interface whose symbol is not also a value is
emitted as a single zero-argument function declaration whose tags include
the record tag (the annotation transformer adds no struct tag, which only
the externs generator emits), and no member-type-declaration statement is
emitted. -/
theorem empty_interface_record_no_members (env : IfaceEnv) (iface : TypeDecl) (nm : String)
    (sym : Symbol) (hn : iface.name = some nm) (hs : env.getSymbolAtLocation nm = some sym)
    (hv : sym.flags.valueFlag = false) (hm : iface.members = []) :
    ∃ tags,
      (visitInterfaceDeclaration env iface).stmts =
        [IfaceOut.functionDecl iface.exported nm [] tags] ∧
      ({ tagName := "record" } : Tag) ∈ tags := by
  unfold visitInterfaceDeclaration
  rw [hn]
  dsimp only
  rw [hs]
  dsimp only
  rw [hv]
  simp only [Bool.false_eq_true, if_false]
  rw [createMemberTypeDeclaration_of_no_members env.memberEnv iface hm]
  dsimp only
  have hrec : ({ tagName := "record" } : Tag) ∈
      env.getJSDoc iface ++ [({ tagName := "record" } : Tag)] :=
    List.mem_append_right _ (List.mem_singleton.mpr rfl)
  have hrec1 := mem_maybeAddTemplateClause
    (env.getJSDoc iface ++ [({ tagName := "record" } : Tag)]) iface hrec
  refine ⟨_, rfl, ?_⟩
  by_cases hu : env.untyped = true
  · simp only [hu, if_true]
    exact hrec1
  · simp only [Bool.not_eq_true] at hu
    simp only [hu, Bool.false_eq_true, if_false]
    exact mem_maybeAddHeritageClauses env.typeEnv _ iface hrec1

/-- C6 witness: the concrete empty interface I yields exactly one function
declaration whose tags include the record tag. -/
theorem empty_interface_record_no_members_witness :
    ∃ tags,
      (visitInterfaceDeclaration c6Env c6Iface).stmts =
        [IfaceOut.functionDecl false ("I") [] tags] ∧
      ({ tagName := "record" } : Tag) ∈ tags :=
  empty_interface_record_no_members c6Env c6Iface ("I")
    (⟨2, "I", ⟨false, false, false, false⟩⟩ : Symbol) (by decide) (by decide) (by decide)
    (by decide)

theorem visitVarDeclList_none_eq (env : VarEnv) (flags : Nat) (l : List VarDecl) :
    visitVarDeclList env flags none l =
      l.map (fun d => VarOut.varStmtOut d flags (declTypeTags env d)) := by
  induction l with
  | nil => rfl
  | cons d rest ih => simp [visitVarDeclList, ih]

theorem outVarStmts_holder (c : List SynthComment) :
    outVarStmts [VarOut.commentHolder c] = [] := rfl

theorem outVarStmts_map_varStmtOut (flags : Nat) (f : VarDecl → List Tag) (l : List VarDecl) :
    outVarStmts (l.map (fun d => VarOut.varStmtOut d flags (f d))) =
      l.map (fun d => (d, f d)) := by
  induction l with
  | nil => rfl
  | cons d rest ih => simp only [List.map_cons, outVarStmts, List.filterMap_cons] at ih ⊢; simp [ih]

/-- C3: the variable visitor emits one statement per declarator, the
statement-level tags going to the first; a plain-identifier declarator
carries a type tag with its translated type unless it both has an
initializer and a blacklisted type; a blacklisted identifier declarator
without initializer still carries a type tag with the unknown marker; a
destructuring binding never carries a type tag. -/
theorem var_statement_type_tags (env : VarEnv) (vs : VarStatement)
    (hbl : ∀ d, env.isBlackListed d = true → env.typeToClosure d = ("?")) :
    outVarStmts (visitVariableStatement env vs) =
      (match vs.decls with
       | [] => []
       | d :: rest =>
         (d, env.getJSDocStmt vs ++ declTypeTags env d) ::
           rest.map (fun d => (d, declTypeTags env d))) ∧
    (∀ d s, d.name = BindingName.patternBinding s → declTypeTags env d = []) ∧
    (∀ d s, d.name = BindingName.identBinding s →
      ((¬ (d.hasInitializer = true ∧ env.isBlackListed d = true)) →
        declTypeTags env d = [{ tagName := "type", type := some (env.typeToClosure d) }]) ∧
      ((d.hasInitializer = true ∧ env.isBlackListed d = true) → declTypeTags env d = []) ∧
      (d.hasInitializer = false → env.isBlackListed d = true →
        declTypeTags env d = [{ tagName := "type", type := some ("?") }])) := by
  refine ⟨?_, ?_, ?_⟩
  · unfold visitVariableStatement
    have hout : outVarStmts
        ((match vs.leadingComments with
          | none => ([] : List VarOut)
          | some leading => [VarOut.commentHolder (leading.filter notJSDocComment)]) ++
          visitVarDeclList env vs.flags (some (env.getJSDocStmt vs)) vs.decls) =
        outVarStmts (visitVarDeclList env vs.flags (some (env.getJSDocStmt vs)) vs.decls) := by
      cases vs.leadingComments with
      | none => simp
      | some leading =>
        rw [show (match some leading with
            | none => ([] : List VarOut)
            | some leading => [VarOut.commentHolder (leading.filter notJSDocComment)]) =
            [VarOut.commentHolder (leading.filter notJSDocComment)] from rfl]
        unfold outVarStmts
        rw [List.filterMap_append]
        rfl
    rw [hout]
    cases hd : vs.decls with
    | nil => rfl
    | cons d rest =>
      unfold visitVarDeclList
      dsimp only
      rw [visitVarDeclList_none_eq]
      unfold outVarStmts
      rw [List.filterMap_cons]
      dsimp only
      rw [show List.filterMap _ (rest.map (fun d =>
        VarOut.varStmtOut d vs.flags (declTypeTags env d))) =
        outVarStmts (rest.map (fun d => VarOut.varStmtOut d vs.flags (declTypeTags env d)))
        from rfl]
      rw [outVarStmts_map_varStmtOut]
  · intro d s hds
    unfold declTypeTags
    rw [hds]
  · intro d s hds
    refine ⟨?_, ?_, ?_⟩
    · intro hcond
      unfold declTypeTags
      rw [hds, if_neg hcond]
    · intro hcond
      unfold declTypeTags
      rw [hds, if_pos hcond]
    · intro hinit hblk
      unfold declTypeTags
      rw [hds, if_neg (by simp [hinit]), hbl d hblk]

/-- C3 witness: a single identifier declarator with no initializer and a
blacklisted type still receives a type tag with the unknown marker. -/
theorem var_statement_type_tags_witness :
    outVarStmts (visitVariableStatement c3wEnv c3wStmt) =
      [(⟨0, BindingName.identBinding ("x"), false⟩,
        [{ tagName := "type", type := some ("?") }])] := by
  have h := (var_statement_type_tags c3wEnv c3wStmt (fun d _ => rfl)).1
  rw [h]
  decide

/-- C4: the typedef statement for a type alias is emitted exactly when the
alias is exported, its symbol is not also a value, and the module format
is CommonJS; in that case it is a single exports property access of the
alias name annotated with a typedef tag, and in every other case nothing
is emitted. -/
theorem type_alias_typedef_emit (env : AliasEnv) (ta : TypeAliasDecl) :
    (¬ (visitTypeAliasDeclaration env ta = []) ↔
      ((env.mustGetSymbolAtLocation ta).flags.valueFlag = false ∧ ta.exported = true ∧
        env.moduleKind = ModuleKind.commonJS)) ∧
    ((env.mustGetSymbolAtLocation ta).flags.valueFlag = false → ta.exported = true →
      env.moduleKind = ModuleKind.commonJS →
      visitTypeAliasDeclaration env ta =
        [AliasOut.exportsPropStmt ta.name
          (env.getJSDoc ta ++
            [{ tagName := "typedef",
               type := some (if env.untyped then ("?") else env.typeToClosure ta) }])]) := by
  constructor
  · unfold visitTypeAliasDeclaration
    constructor
    · intro hne
      by_cases h1 : (env.mustGetSymbolAtLocation ta).flags.valueFlag = true
      · rw [if_pos h1] at hne
        exact absurd rfl hne
      · simp only [Bool.not_eq_true] at h1
        rw [if_neg (by simp [h1])] at hne
        by_cases h2 : ta.exported = true
        · rw [if_neg (by simp [h2])] at hne
          by_cases h3 : env.moduleKind = ModuleKind.commonJS
          · exact ⟨h1, h2, h3⟩
          · rw [if_pos (by simpa using h3)] at hne
            exact absurd rfl hne
        · simp only [Bool.not_eq_true] at h2
          rw [if_pos (by simp [h2])] at hne
          exact absurd rfl hne
    · rintro ⟨h1, h2, h3⟩
      rw [if_neg (by simp [h1]), if_neg (by simp [h2]), if_neg (by simpa using h3)]
      simp
  · intro h1 h2 h3
    unfold visitTypeAliasDeclaration
    rw [if_neg (by simp [h1]), if_neg (by simp [h2]), if_neg (by simpa using h3)]

/-- C4 witness: the exported alias T under the CommonJS format is emitted
as a single exports property statement carrying its typedef tag. -/
theorem type_alias_typedef_emit_witness :
    visitTypeAliasDeclaration c4wEnv c4wAlias =
      [AliasOut.exportsPropStmt ("T")
        [{ tagName := "typedef", type := some ("(!X|!Y)") }]] := by
  have h := (type_alias_typedef_emit c4wEnv c4wAlias).2 (by decide) (by decide) (by decide)
  rw [h]
  decide

/-- C7: among the statements of a declaration file, a named function with
one or more overload declarations sharing its symbol gives rise to exactly
one function stub, emitted when the first of those declarations is
visited, and the stub carries the merged composite tags of all overloads. -/
theorem externs_overload_single_stub (env : ExternsEnv) (stmts : List ExternsStmt)
    (nm : String) (l : List ExternsFnDecl)
    (hl : env.symbolFnDecls nm = l) (hne : ¬ l = []) (hnd : l.Nodup)
    (hfl : stmts.filterMap (fnDeclOfName nm) = l) :
    fnStubCount nm (createExternsFns env stmts) = 1 ∧
    ExternsOut.fnStub [] nm (getFunctionTypeJSDocModel (l.map (fun d => d.sig))).2
      (getFunctionTypeJSDocModel (l.map (fun d => d.sig))).1 ∈
      createExternsFns env stmts := by
  cases l with
  | nil => exact absurd rfl hne
  | cons d0 l' =>
    have hstep : ∀ s : ExternsStmt, (visitExternsStmt env [] s).countP (isFnStubNamed nm) =
        (if fnDeclOfName nm s = some d0 then 1 else 0) := by
      intro s
      cases s with
      | otherStmt k =>
        simp [visitExternsStmt, fnDeclOfName, isFnStubNamed, List.countP_cons]
      | fnDeclStmt d =>
        cases hn : d.name with
        | none =>
          simp [visitExternsStmt, fnDeclOfName, hn, isFnStubNamed, List.countP_cons]
        | some n =>
          unfold visitExternsStmt fnDeclOfName
          dsimp only
          rw [hn]
          dsimp only
          by_cases hnm : n = nm
          · subst hnm
            rw [hl]
            dsimp only [List.head?]
            rw [if_pos rfl]
            by_cases hd : d = d0
            · subst hd
              rw [if_pos rfl, if_pos rfl]
              simp [isFnStubNamed, List.countP_cons]
            · have h1 : ¬ (some d0 = some d) := by
                simp only [Option.some.injEq]
                exact fun h => hd h.symm
              have h2 : ¬ (some d = some d0) := by
                simp only [Option.some.injEq]
                exact hd
              rw [if_neg h1, if_neg h2]
              rfl
          · have h2 : ¬ (some n = some nm) := by
              simp only [Option.some.injEq]
              exact hnm
            rw [if_neg h2]
            have hnone : ¬ ((none : Option ExternsFnDecl) = some d0) := by simp
            rw [if_neg hnone]
            by_cases hh : (env.symbolFnDecls n).head? = some d
            · rw [if_pos hh]
              have : isFnStubNamed nm (ExternsOut.fnStub []
                  n (getFunctionTypeJSDocModel ((env.symbolFnDecls n).map (fun d => d.sig))).2
                  (getFunctionTypeJSDocModel
                    ((env.symbolFnDecls n).map (fun d => d.sig))).1) = false := by
                simp [isFnStubNamed, hnm]
              simp [List.countP_cons, this]
            · rw [if_neg hh]
              rfl
    have hcount : ∀ ss : List ExternsStmt,
        fnStubCount nm (createExternsFns env ss) =
          (ss.filterMap (fnDeclOfName nm)).countP (fun x => decide (x = d0)) := by
      intro ss
      induction ss with
      | nil => rfl
      | cons s rest ih =>
        have hsplit : createExternsFns env (s :: rest) =
            visitExternsStmt env [] s ++ createExternsFns env rest := by
          simp [createExternsFns]
        unfold fnStubCount at ih ⊢
        rw [hsplit, List.countP_append, ih, List.filterMap_cons]
        have hs := hstep s
        cases hf : fnDeclOfName nm s with
        | none =>
          rw [hf] at hs
          dsimp only
          have hnone : ¬ ((none : Option ExternsFnDecl) = some d0) := by simp
          rw [if_neg hnone] at hs
          rw [hs]
          omega
        | some d =>
          rw [hf] at hs
          dsimp only
          rw [List.countP_cons]
          by_cases hd : d = d0
          · subst hd
            rw [if_pos rfl] at hs
            rw [hs]
            simp [Nat.add_comm]
          · have h2 : ¬ (some d = some d0) := by
              simp only [Option.some.injEq]
              exact hd
            rw [if_neg h2] at hs
            rw [hs]
            simp [hd]
    constructor
    · rw [hcount stmts, hfl, List.countP_cons]
      have hd0 : d0 ∉ l' := (List.nodup_cons.mp hnd).1
      have h0 : l'.countP (fun x => decide (x = d0)) = 0 :=
        List.countP_eq_zero.mpr (fun a ha => by
          simp only [decide_eq_true_eq]
          exact fun heq => hd0 (heq ▸ ha))
      simp [h0]
    · have hmem : d0 ∈ stmts.filterMap (fnDeclOfName nm) := by
        rw [hfl]
        exact List.mem_cons_self _ _
      obtain ⟨s, hsmem, hseq⟩ := List.mem_filterMap.mp hmem
      cases s with
      | otherStmt k => simp [fnDeclOfName] at hseq
      | fnDeclStmt d =>
        unfold fnDeclOfName at hseq
        dsimp only at hseq
        by_cases hdn : d.name = some nm
        · rw [if_pos hdn] at hseq
          simp only [Option.some.injEq] at hseq
          subst hseq
          have hvisit : visitExternsStmt env [] (ExternsStmt.fnDeclStmt d) =
              [ExternsOut.fnStub [] nm
                (getFunctionTypeJSDocModel ((d :: l').map (fun x => x.sig))).2
                (getFunctionTypeJSDocModel ((d :: l').map (fun x => x.sig))).1] := by
            unfold visitExternsStmt
            dsimp only
            rw [hdn]
            dsimp only
            rw [hl]
            dsimp only [List.head?]
            rw [if_pos rfl]
          unfold createExternsFns
          refine List.mem_flatten.mpr ⟨visitExternsStmt env [] (ExternsStmt.fnDeclStmt d),
            List.mem_map_of_mem _ hsmem, ?_⟩
          rw [hvisit]
          exact List.mem_singleton.mpr rfl
        · rw [if_neg hdn] at hseq
          simp at hseq

/-- C7 witness: the two overloads of f produce exactly one stub, whose
composite tags merge the parameter into a union and the returns into a
union. -/
theorem externs_overload_single_stub_witness :
    fnStubCount ("f") (createExternsFns c7Env c7Stmts) = 1 ∧
    ExternsOut.fnStub [] ("f") (["x"])
      [{ tagName := "param", type := some ("(number|string)"), parameterName := some ("x") },
       { tagName := "return", type := some ("(void|number)") }] ∈
      createExternsFns c7Env c7Stmts := by
  have h := externs_overload_single_stub c7Env c7Stmts ("f") [c7d1, c7d2]
    (by decide) (by decide) (by decide) (by decide)
  refine ⟨h.1, ?_⟩
  have heq : ExternsOut.fnStub [] ("f")
      (getFunctionTypeJSDocModel ([c7d1, c7d2].map (fun d => d.sig))).2
      (getFunctionTypeJSDocModel ([c7d1, c7d2].map (fun d => d.sig))).1 =
      ExternsOut.fnStub [] ("f") (["x"])
        [{ tagName := "param", type := some ("(number|string)"), parameterName := some ("x") },
         { tagName := "return", type := some ("(void|number)") }] := by
    decide
  exact heq ▸ h.2

end Tsickle
